import Mathlib

/-!
Verification of `scripts/mm12_gene_abundance.py` (OxfordCMS/OCMS_MM12).

The Python script estimates per-gene relative abundance in an MM12
community: it reads a strain-by-sample relative-abundance matrix and
per-strain annotation tables, divides each strain's abundance evenly
across its annotated features, and sums contributions per (sample,
identifier) pair.

This file is a shallow embedding of that script:
* `Annot` / `mkAnnot` model `class Annotation` and its `__init__`
  normalization rules (file lines 112-139);
* `rowToAnnot` models one iteration of the row loop in
  `build_annotation` (lines 155-165): indexing `data[0] .. data[6]`
  raises `IndexError` on a short row, extra fields are ignored;
* `read_abund` models `read_relab` (lines 90-106);
* `check_files` models the file-presence validator (lines 182-194),
  with `globTsv` modelling `glob.glob(dir + "/*.tsv")`;
* `aggregate` models the main accumulation loop (lines 243-258) over the
  per-strain identifier sequences extracted by `build_annotation`
  (`annots strain` stands for `list(annotation.values())[0]`, and the
  `annots strain = []` failure branch models the `IndexError` that
  `get_number_of_genes` raises on an empty annotation file);
* `outputHeader` / `renderTable` model the writer
  `pd.DataFrame(gene_relabs)` + `to_csv(sep="\t", index_label="gene")`
  (lines 261-264): columns are the samples, rows the union of observed
  identifiers, a missing (sample, identifier) pair is a blank cell, and
  the first header cell is the literal string "gene".

Numbers are modelled by `ℚ` (the script converts the text values with
`float` and only adds and divides them).
-/

namespace MM12

/-- Model of Python `str.split("_")` on the character list of a string:
splits at every underscore, keeping empty segments, and returns `[[]]`
on the empty string, exactly as in Python. -/
def splitU : List Char → List (List Char)
  | [] => [[]]
  | c :: cs =>
    let r := splitU cs
    if c = '_' then [] :: r
    else (c :: r.headD []) :: r.tail

/-- Model of Python `s.split("_")` for a `String`. -/
def pySplitU (s : String) : List String := (splitU s.data).map String.mk

/-- Model of `class Annotation` of the script: one row of a strain's
annotation file after `__init__` has run. All fields are strings. -/
structure Annot where
  locus_tag : String
  ftype : String
  length : String
  gene : String
  ec : String
  cog : String
  product : String
deriving DecidableEq, Repr

/-- Model of `Annotation.__init__` (script lines 114-139), applying the
normalization steps in source order:
1. empty `gene` becomes `"unannotated_gene"`;
2. if the (possibly replaced) `gene` splits on `"_"` into exactly two
   segments, it is replaced by the first segment (`self.gene.split("_")[0]`);
3. empty `ec`, `cog`, `product` get their placeholder values. -/
def mkAnnot (locus_tag ftype len gene ec cog product : String) : Annot :=
  let g1 := if gene = "" then "unannotated_gene" else gene
  let g2 := if (pySplitU g1).length = 2 then (pySplitU g1).getD 0 "" else g1
  let e1 := if ec = "" then "unannotated_ec" else ec
  let c1 := if cog = "" then "unannotated_cog" else cog
  let p1 := if product = "" then "unannotated_gene_product" else product
  ⟨locus_tag, ftype, len, g2, e1, c1, p1⟩

/-- Model of one iteration of the row loop of `build_annotation`
(script line 158): the row's tab-split fields are indexed
`data[0] .. data[6]`, so a row with fewer than seven fields raises
`IndexError` (`none` here), and any fields past the seventh are never
read. -/
def rowToAnnot : List String → Option Annot
  | a :: b :: c :: d :: e :: f :: g :: _ => some (mkAnnot a b c d e f g)
  | _ => none

/-- C2: the claim says an empty `gene_symbol` field yields the record
gene `"unannotated_gene"`. The code first substitutes
`"unannotated_gene"`, but the subsequent suffix-collapse step then
splits that very placeholder at its underscore into two segments and
truncates it, so the constructed record's gene field is `"unannotated"`,
not `"unannotated_gene"`. This theorem evaluates the embedded code at
the failing input (the second example row of the script's own
docstring). -/
theorem C2_empty_gene_code_result :
    (rowToAnnot ["LHNLDECA_00002", "CDS", "525", "", "", "", "hypothetical protein"]).map
        Annot.gene = some "unannotated" ∧
      "unannotated" ≠ "unannotated_gene" := by
  decide

/-- C3 counterexample: the claim says truncation happens exactly when
the second underscore-delimited segment is numeric. The code only
checks that the split has exactly two segments: on the gene symbol
`"foo_bar"`, whose second segment `"bar"` is not numeric, the record's
gene field is nevertheless truncated to `"foo"`, while the claim
predicts it stays `"foo_bar"`. -/
theorem C3_nonnumeric_suffix_truncated :
    (pySplitU "foo_bar").length = 2 ∧
      ("bar".data.all fun c => c.isDigit) = false ∧
      (rowToAnnot ["L1", "CDS", "10", "foo_bar", "e", "c", "p"]).map Annot.gene =
        some "foo" := by
  decide

/-- C3 amended: for any annotation row of at least seven fields whose
gene field is nonempty, the record's gene is truncated to the first
underscore-delimited segment exactly when the gene symbol splits into
exactly two segments, whether or not the second segment is numeric;
otherwise it is unchanged. -/
theorem C3_two_segment_truncation (data : List String) (hne : data.getD 3 "" ≠ "")
    (h7 : 7 ≤ data.length) :
    (rowToAnnot data).map Annot.gene =
      some (if (pySplitU (data.getD 3 "")).length = 2
            then (pySplitU (data.getD 3 "")).getD 0 ""
            else data.getD 3 "") := by
  rcases data with _ | ⟨a, _ | ⟨b, _ | ⟨c, _ | ⟨d, _ | ⟨e, _ | ⟨f, _ | ⟨g, rest⟩⟩⟩⟩⟩⟩⟩ <;>
    first
    | (simp only [List.getD_cons_succ, List.getD_cons_zero] at hne ⊢
       simp [rowToAnnot, mkAnnot, hne]
       done)
    | (exfalso; simp at h7)

/-- C3 witness: the concrete row with gene symbol "ssuE_2" is truncated
to "ssuE". -/
theorem C3_two_segment_truncation_witness :
    (rowToAnnot ["L1", "CDS", "10", "ssuE_2", "e", "c", "p"]).map Annot.gene =
      some (if (pySplitU "ssuE_2").length = 2
            then (pySplitU "ssuE_2").getD 0 ""
            else "ssuE_2") :=
  C3_two_segment_truncation ["L1", "CDS", "10", "ssuE_2", "e", "c", "p"]
    (by decide) (by decide)

/-- C9: an annotation row with more than seven tab-separated fields
parses successfully, and the constructed record is the one built from
the first seven fields alone: everything past the seventh field is
silently ignored. -/
theorem C9_extra_fields_ignored (data : List String) (h : 7 < data.length) :
    (rowToAnnot data).isSome = true ∧ rowToAnnot data = rowToAnnot (data.take 7) := by
  rcases data with _ | ⟨a, _ | ⟨b, _ | ⟨c, _ | ⟨d, _ | ⟨e, _ | ⟨f, _ | ⟨g, rest⟩⟩⟩⟩⟩⟩⟩ <;>
    first
    | exact ⟨rfl, rfl⟩
    | (exfalso; simp at h)

/-- C9 witness at a concrete eight-field row. -/
theorem C9_extra_fields_ignored_witness :
    (rowToAnnot ["a", "b", "c", "d", "e", "f", "g", "h"]).isSome = true ∧
      rowToAnnot ["a", "b", "c", "d", "e", "f", "g", "h"] =
        rowToAnnot (["a", "b", "c", "d", "e", "f", "g", "h"].take 7) :=
  C9_extra_fields_ignored ["a", "b", "c", "d", "e", "f", "g", "h"] (by decide)

/-! ## The aggregator (script lines 243-258)

The main loop iterates over `relab.items()` (sample → strain → abundance
text) and, for each (sample, strain) pair, rebuilds the strain's
identifier sequence from its annotation file, computes the per-gene
share `float(relab)/float(ngenes)`, and accumulates it into
`gene_relabs[sample][g]`, skipping identifiers equal to `"gene"`.

`annots strain` stands for the identifier sequence that
`build_annotation` extracts from the strain's annotation file
(`list(annotation.values())[0]`); a strain whose file has zero rows
gives an empty defaultdict, and `get_number_of_genes` then raises
`IndexError` on `list(annotations.values())[0]` — modelled by the
`annots strain = []` failure branch of `processStrains`. -/

/-- The nested mapping `gene_relabs` : sample → identifier → total. -/
abbrev GeneMap := String → String → Option ℚ

/-- The initial `collections.defaultdict(dict)`: no entries. -/
def emptyMap : GeneMap := fun _ _ => none

/-- Model of the `try`/`except KeyError` update (script lines 255-258):
add the share to the existing total at `(sample, g)`, or initialize the
entry to the share if there is none. -/
def updateGene (m : GeneMap) (sample g : String) (share : ℚ) : GeneMap :=
  fun s i =>
    if s = sample ∧ i = g then
      match m sample g with
      | some v => some (v + share)
      | none => some share
    else m s i

/-- Model of the inner loop `for g in list(annotation.values())[0]`
(script lines 252-258): fold over the strain's identifier sequence,
skipping the literal identifier "gene". -/
def addStrainGenes (sample : String) (share : ℚ) (genes : List String)
    (m : GeneMap) : GeneMap :=
  genes.foldl (fun acc g => if g = "gene" then acc else updateGene acc sample g share) m

/-- Model of the loop `for strain, relab in strain_relab.items()`
(script lines 244-258) for one sample: for each (strain, abundance)
pair, fail (`none`) if the strain's identifier sequence is empty
(the `IndexError` from `get_number_of_genes`), otherwise accumulate
each identifier's share `relab / ngenes`. -/
def processStrains (annots : String → List String) (sample : String) :
    List (String × ℚ) → GeneMap → Option GeneMap
  | [], m => some m
  | (strain, r) :: rest, m =>
    let genes := annots strain
    if genes.length = 0 then none
    else
      processStrains annots sample rest
        (addStrainGenes sample (r / (genes.length : ℚ)) genes m)

/-- Model of the outer loop `for sample, strain_relab in relab.items()`
(script line 243): process every sample in turn, propagating a fatal
error. -/
def aggregate (annots : String → List String) :
    List (String × List (String × ℚ)) → GeneMap → Option GeneMap
  | [], m => some m
  | (sample, strains) :: rest, m =>
    match processStrains annots sample strains m with
    | none => none
    | some m2 => aggregate annots rest m2

/-- Sum of the contributions of the strains of one sample to identifier
`g`, restricted (as in the claim) to the strains whose identifier
sequence contains `g`: each contributes
(occurrences of g) * abundance / (number of annotation rows). -/
def contribution (annots : String → List String) (g : String)
    (strains : List (String × ℚ)) : ℚ :=
  ((strains.filter fun p => decide (g ∈ annots p.1)).map
    fun p => ((annots p.1).count g : ℚ) * p.2 / ((annots p.1).length : ℚ)).sum

/-- Same sum taken over all strains of the sample (strains not
containing `g` contribute `0`). -/
def contribAll (annots : String → List String) (g : String)
    (strains : List (String × ℚ)) : ℚ :=
  (strains.map fun p => ((annots p.1).count g : ℚ) * p.2 / ((annots p.1).length : ℚ)).sum

/-- Total contribution to the entry `(s, g)` over every sample pair of
the table whose name is `s`. -/
def totalContrib (annots : String → List String)
    (samples : List (String × List (String × ℚ))) (s g : String) : ℚ :=
  (samples.map fun pair => if pair.1 = s then contribAll annots g pair.2 else 0).sum

/-- Identifier `g` is observed for sample `s`: some pair of the table is
named `s` and lists a strain whose identifier sequence contains `g`. -/
def appears (annots : String → List String)
    (samples : List (String × List (String × ℚ))) (s g : String) : Prop :=
  ∃ pair ∈ samples, pair.1 = s ∧ ∃ p ∈ pair.2, g ∈ annots p.1

instance (annots : String → List String)
    (samples : List (String × List (String × ℚ))) (s g : String) :
    Decidable (appears annots samples s g) :=
  List.decidableBEx _ samples

/-- Every strain listed anywhere in the table has a nonempty identifier
sequence: exactly the condition under which the main loop runs to
completion. -/
def okInput (annots : String → List String)
    (samples : List (String × List (String × ℚ))) : Prop :=
  ∀ pair ∈ samples, ∀ p ∈ pair.2, annots p.1 ≠ []

theorem updateGene_lookup (m : GeneMap) (sample g : String) (share : ℚ)
    (s i : String) :
    updateGene m sample g share s i =
      if s = sample ∧ i = g then some ((m s i).getD 0 + share) else m s i := by
  unfold updateGene
  split
  · rename_i h
    obtain ⟨h1, h2⟩ := h
    subst h1
    subst h2
    cases m s i <;> simp
  · rfl

theorem addStrainGenes_lookup (sample : String) (share : ℚ) (genes : List String)
    (m : GeneMap) (s i : String) :
    addStrainGenes sample share genes m s i =
      if s = sample ∧ i ≠ "gene" ∧ i ∈ genes
      then some ((m s i).getD 0 + (genes.count i : ℚ) * share)
      else m s i := by
  induction genes generalizing m with
  | nil => simp [addStrainGenes]
  | cons g gs ih =>
    show addStrainGenes sample share gs
        (if g = "gene" then m else updateGene m sample g share) s i = _
    by_cases hg : g = "gene"
    · subst hg
      rw [if_pos rfl, ih]
      by_cases hig : i = "gene"
      · subst hig
        simp
      · simp only [List.mem_cons, List.count_cons_of_ne hig]
        by_cases him : i ∈ gs
        · simp [him, hig]
        · simp [him, hig]
    · rw [if_neg hg, ih, updateGene_lookup]
      by_cases hs : s = sample
      · subst hs
        by_cases hig : i = "gene"
        · subst hig
          have hgn : ¬("gene" : String) = g := fun h => hg h.symm
          simp [hgn]
        · by_cases hieq : i = g
          · subst hieq
            by_cases him : i ∈ gs
            · simp [hig, him]
              ring
            · simp only [hig, him, List.mem_cons, or_false, and_true, ne_eq,
                not_false_iff, true_and, and_false, if_false, if_pos rfl,
                List.count_cons_self, List.count_eq_zero.mpr him,
                Option.getD_some, Option.some.injEq, true_or, if_true]
              push_cast
              ring
          · by_cases him : i ∈ gs
            · simp [hig, him, hieq, List.count_cons_of_ne hieq, List.mem_cons]
            · simp [him, hieq, List.mem_cons]
      · simp [hs]

theorem contribAll_cons (annots : String → List String) (i : String)
    (strain : String) (r : ℚ) (rest : List (String × ℚ)) :
    contribAll annots i ((strain, r) :: rest) =
      ((annots strain).count i : ℚ) * r / ((annots strain).length : ℚ) +
        contribAll annots i rest := by
  simp [contribAll]

theorem contribAll_eq_zero (annots : String → List String) (i : String)
    (strains : List (String × ℚ)) (h : ∀ p ∈ strains, i ∉ annots p.1) :
    contribAll annots i strains = 0 := by
  apply List.sum_eq_zero
  intro x hx
  rcases List.mem_map.mp hx with ⟨p, hp, rfl⟩
  rw [List.count_eq_zero.mpr (h p hp)]
  simp

theorem processStrains_lookup (annots : String → List String) (sample : String)
    (strains : List (String × ℚ)) :
    ∀ m m' : GeneMap, processStrains annots sample strains m = some m' →
      ∀ s i : String,
        m' s i =
          if s = sample ∧ i ≠ "gene" ∧ ∃ p ∈ strains, i ∈ annots p.1
          then some ((m s i).getD 0 + contribAll annots i strains)
          else m s i := by
  induction strains with
  | nil =>
    intro m m' h s i
    simp only [processStrains, Option.some.injEq] at h
    subst h
    simp
  | cons p rest ih =>
    obtain ⟨strain, r⟩ := p
    intro m m' h s i
    simp only [processStrains] at h
    by_cases hlen : (annots strain).length = 0
    · rw [if_pos hlen] at h
      exact absurd h (by simp)
    · rw [if_neg hlen] at h
      rw [ih _ _ h s i, addStrainGenes_lookup]
      by_cases hig : i = "gene"
      · simp [hig]
      · by_cases hs : s = sample
        · subst hs
          by_cases h1 : i ∈ annots strain <;>
            by_cases h2 : ∃ p ∈ rest, i ∈ annots p.1
          · simp [hig, h1, h2, contribAll_cons, mul_div_assoc, add_assoc]
          · have hnone : ∀ p ∈ rest, i ∉ annots p.1 := by
              intro p hp hmem
              exact h2 ⟨p, hp, hmem⟩
            simp [hig, h1, h2, contribAll_cons,
              contribAll_eq_zero annots i rest hnone, mul_div_assoc]
          · have hc : List.count i (annots strain) = 0 := List.count_eq_zero.mpr h1
            simp [hig, h1, h2, contribAll_cons, hc]
          · simp [hig, h1, h2]
        · simp [hs]

theorem appears_cons (annots : String → List String) (sample : String)
    (strains : List (String × ℚ)) (rest : List (String × List (String × ℚ)))
    (s i : String) :
    appears annots ((sample, strains) :: rest) s i ↔
      (sample = s ∧ ∃ p ∈ strains, i ∈ annots p.1) ∨ appears annots rest s i := by
  simp [appears]

theorem totalContrib_cons (annots : String → List String) (sample : String)
    (strains : List (String × ℚ)) (rest : List (String × List (String × ℚ)))
    (s i : String) :
    totalContrib annots ((sample, strains) :: rest) s i =
      (if sample = s then contribAll annots i strains else 0) +
        totalContrib annots rest s i := by
  simp [totalContrib]

theorem totalContrib_eq_zero (annots : String → List String)
    (samples : List (String × List (String × ℚ))) (s i : String)
    (h : ¬appears annots samples s i) : totalContrib annots samples s i = 0 := by
  apply List.sum_eq_zero
  intro x hx
  rcases List.mem_map.mp hx with ⟨pair, hpair, rfl⟩
  by_cases hp : pair.1 = s
  · rw [if_pos hp]
    apply contribAll_eq_zero
    intro p hp2 hmem
    exact h ⟨pair, hpair, hp, p, hp2, hmem⟩
  · rw [if_neg hp]

theorem aggregate_lookup (annots : String → List String)
    (samples : List (String × List (String × ℚ))) :
    ∀ m m' : GeneMap, aggregate annots samples m = some m' →
      ∀ s i : String,
        m' s i =
          if i ≠ "gene" ∧ appears annots samples s i
          then some ((m s i).getD 0 + totalContrib annots samples s i)
          else m s i := by
  induction samples with
  | nil =>
    intro m m' h s i
    simp only [aggregate, Option.some.injEq] at h
    subst h
    simp [appears]
  | cons pair rest ih =>
    obtain ⟨sample, strains⟩ := pair
    intro m m' h s i
    simp only [aggregate] at h
    cases hps : processStrains annots sample strains m with
    | none =>
      rw [hps] at h
      exact absurd h (by simp)
    | some m2 =>
      rw [hps] at h
      rw [ih _ _ h s i, processStrains_lookup annots sample strains _ _ hps s i]
      by_cases hig : i = "gene"
      · simp [hig]
      · by_cases hs : sample = s
        · subst hs
          by_cases h1 : ∃ p ∈ strains, i ∈ annots p.1 <;>
            by_cases h2 : appears annots rest sample i
          · simp [hig, h1, h2, appears_cons, totalContrib_cons, add_assoc]
          · simp [hig, h1, h2, appears_cons, totalContrib_cons,
              totalContrib_eq_zero annots rest sample i h2]
          · simp [hig, h1, h2, appears_cons, totalContrib_cons,
              contribAll_eq_zero annots i strains
                (fun p hp hmem => h1 ⟨p, hp, hmem⟩)]
          · simp [hig, h1, h2, appears_cons]
        · have hs2 : ¬s = sample := fun h0 => hs h0.symm
          by_cases h2 : appears annots rest s i
          · simp [hig, hs, hs2, h2, appears_cons, totalContrib_cons]
          · simp [hig, hs, hs2, h2, appears_cons]

theorem processStrains_isSome (annots : String → List String) (sample : String) :
    ∀ (strains : List (String × ℚ)) (m : GeneMap),
      (processStrains annots sample strains m).isSome = true ↔
        ∀ p ∈ strains, annots p.1 ≠ [] := by
  intro strains
  induction strains with
  | nil =>
    intro m
    simp [processStrains]
  | cons p rest ih =>
    obtain ⟨strain, r⟩ := p
    intro m
    simp only [processStrains]
    by_cases hlen : (annots strain).length = 0
    · have hE : annots strain = [] := List.length_eq_zero.mp hlen
      simp [hlen, hE, List.forall_mem_cons]
    · have hne : annots strain ≠ [] := fun hE => hlen (by simp [hE])
      simp [hlen, ih, List.forall_mem_cons, hne]

theorem aggregate_isSome (annots : String → List String) :
    ∀ (samples : List (String × List (String × ℚ))) (m : GeneMap),
      (aggregate annots samples m).isSome = true ↔ okInput annots samples := by
  intro samples
  induction samples with
  | nil =>
    intro m
    simp [aggregate, okInput]
  | cons pair rest ih =>
    obtain ⟨sample, strains⟩ := pair
    intro m
    simp only [aggregate]
    cases hps : processStrains annots sample strains m with
    | none =>
      have h1 := processStrains_isSome annots sample strains m
      rw [hps] at h1
      simp only [Option.isSome_none, Bool.false_eq_true, false_iff] at h1
      simp only [Option.isSome_none, Bool.false_eq_true, false_iff]
      intro hok
      exact h1 fun p hp => hok (sample, strains) (List.mem_cons_self _ _) p hp
    | some m2 =>
      have h1 := processStrains_isSome annots sample strains m
      rw [hps] at h1
      simp only [Option.isSome_some, true_iff] at h1
      rw [ih m2]
      constructor
      · intro hok
        intro pair hpair p hp
        rcases List.mem_cons.mp hpair with h3 | h3
        · subst h3
          exact h1 p hp
        · exact hok pair h3 p hp
      · intro hok pair hpair p hp
        exact hok pair (List.mem_cons_of_mem _ hpair) p hp

theorem contribution_eq_contribAll (annots : String → List String) (g : String)
    (strains : List (String × ℚ)) :
    contribution annots g strains = contribAll annots g strains := by
  induction strains with
  | nil => simp [contribution, contribAll]
  | cons p rest ih =>
    by_cases hm : g ∈ annots p.1
    · simp only [contribution, contribAll] at ih ⊢
      simp [List.filter_cons, hm, ih]
    · simp only [contribution, contribAll] at ih ⊢
      simp [List.filter_cons, hm, ih, List.count_eq_zero.mpr hm]

theorem totalContrib_not_listed (annots : String → List String)
    (samples : List (String × List (String × ℚ))) (s g : String)
    (h : s ∉ samples.map Prod.fst) : totalContrib annots samples s g = 0 := by
  apply List.sum_eq_zero
  intro x hx
  rcases List.mem_map.mp hx with ⟨pair, hpair, rfl⟩
  rw [if_neg fun he => h (List.mem_map.mpr ⟨pair, hpair, he⟩)]

theorem totalContrib_single (annots : String → List String)
    (samples : List (String × List (String × ℚ))) (sample : String)
    (strains : List (String × ℚ)) (g : String)
    (hnd : (samples.map Prod.fst).Nodup) (hmem : (sample, strains) ∈ samples) :
    totalContrib annots samples sample g = contribAll annots g strains := by
  induction samples with
  | nil => exact absurd hmem (List.not_mem_nil _)
  | cons pair rest ih =>
    have hnd2 : pair.1 ∉ rest.map Prod.fst ∧ (rest.map Prod.fst).Nodup := by
      rw [List.map_cons, List.nodup_cons] at hnd
      exact hnd
    obtain ⟨hhead, htail⟩ := hnd2
    rcases List.mem_cons.mp hmem with h1 | h1
    · obtain ⟨rfl, rfl⟩ : pair.1 = sample ∧ pair.2 = strains := by
        rw [← h1]
        exact ⟨rfl, rfl⟩
      rw [totalContrib_cons, if_pos rfl,
        totalContrib_not_listed annots rest pair.1 g hhead, add_zero]
    · have hne : pair.1 ≠ sample := by
        intro he
        exact hhead (he ▸ List.mem_map.mpr ⟨(sample, strains), h1, rfl⟩)
      rw [totalContrib_cons, if_neg hne, zero_add, ih htail h1]

/-- C1: for every sample and every identifier `g` other than the literal
string "gene", after aggregation the entry at `(sample, g)` equals the
sum, over the strains listed under that sample whose identifier sequence
contains `g`, of (occurrences of g) * (strain abundance) / (number of
annotation rows of the strain); and the identifier "gene" is skipped and
receives no entry. Sample names are pairwise distinct, as they are keys
of the Python dict built by `read_relab`. -/
theorem C1_equal_share_accumulation
    (annots : String → List String) (samples : List (String × List (String × ℚ)))
    (sample : String) (strains : List (String × ℚ)) (g : String)
    (hnd : (samples.map Prod.fst).Nodup) (hmem : (sample, strains) ∈ samples)
    (hg : g ≠ "gene") (hobs : ∃ p ∈ strains, g ∈ annots p.1)
    (hok : (aggregate annots samples emptyMap).isSome = true) :
    (aggregate annots samples emptyMap).map (fun m => m sample g) =
        some (some (contribution annots g strains)) ∧
      (aggregate annots samples emptyMap).map (fun m => m sample "gene") =
        some none := by
  obtain ⟨m, hm⟩ := Option.isSome_iff_exists.mp hok
  rw [hm]
  have hl := aggregate_lookup annots samples emptyMap m hm
  constructor
  · rw [Option.map_some', hl sample g,
      if_pos ⟨hg, (sample, strains), hmem, rfl, hobs⟩,
      totalContrib_single annots samples sample strains g hnd hmem,
      contribution_eq_contribAll]
    simp [emptyMap]
  · rw [Option.map_some', hl sample "gene"]
    simp [emptyMap]

/-- Identifier sequences of the round-trip scenario of the spec: strain
KB1 has rows [alr, alr, luxS], strain YL32 has [luxS]. -/
def exAnnots : String → List String := fun st =>
  if st = "KB1" then ["alr", "alr", "luxS"]
  else if st = "YL32" then ["luxS"]
  else []

/-- Abundance table of the round-trip scenario: one sample with
KB1 at 3/5 and YL32 at 2/5. -/
def exSamples : List (String × List (String × ℚ)) :=
  [("sample1", [("KB1", 3 / 5), ("YL32", 2 / 5)])]

/-- C1 witness: in the round-trip scenario, the entry for "alr" in
sample1 is 2 * (3/5) / 3 = 2/5, and "gene" has no entry. -/
theorem C1_equal_share_accumulation_witness :
    (aggregate exAnnots exSamples emptyMap).map (fun m => m "sample1" "alr") =
        some (some (2 / 5)) ∧
      (aggregate exAnnots exSamples emptyMap).map (fun m => m "sample1" "gene") =
        some none := by
  have h := C1_equal_share_accumulation exAnnots exSamples "sample1"
    [("KB1", 3 / 5), ("YL32", 2 / 5)] "alr" (by decide) (List.Mem.head _)
    (by decide) ⟨("KB1", 3 / 5), List.Mem.head _, by decide⟩ (by decide)
  refine ⟨?_, h.2⟩
  rw [h.1]
  have hc : contribution exAnnots "alr" [("KB1", 3 / 5), ("YL32", 2 / 5)] = 2 / 5 := by
    have h3 : List.count "alr" (exAnnots "KB1") = 2 := by
      simp [exAnnots, List.count_cons]
    simp [contribution, List.filter_cons, exAnnots, h3]
    norm_num
  rw [hc]

/-- C5 counterexample: the claim promises an entry for every identifier
appearing in a processed strain's sequence, but the identifier that is
literally "gene" is skipped by the loop and receives no entry: here
strain A of sample s1 has the identifier sequence ["gene"], aggregation
succeeds, and the output has no entry at (s1, "gene"). -/
theorem C5_gene_identifier_skipped :
    ("gene" ∈ (fun st => if st = "A" then ["gene"] else ([] : List String)) "A") ∧
      (aggregate (fun st => if st = "A" then ["gene"] else [])
          [("s1", [("A", 1)])] emptyMap).map (fun m => m "s1" "gene") =
        some none := by
  constructor
  · decide
  · decide

/-- C5 amended: after successful aggregation, every identifier OTHER
THAN the literal string "gene" that appears in a processed strain's
identifier sequence, for every sample in which that strain appears, has
an entry in the output mapping for that sample. -/
theorem C5_observed_identifier_present
    (annots : String → List String) (samples : List (String × List (String × ℚ)))
    (pair : String × List (String × ℚ)) (p : String × ℚ) (g : String)
    (hpair : pair ∈ samples) (hp : p ∈ pair.2) (hg : g ∈ annots p.1)
    (hgne : g ≠ "gene")
    (hok : (aggregate annots samples emptyMap).isSome = true) :
    (aggregate annots samples emptyMap).map (fun m => (m pair.1 g).isSome) =
      some true := by
  obtain ⟨m, hm⟩ := Option.isSome_iff_exists.mp hok
  rw [hm, Option.map_some',
    aggregate_lookup annots samples emptyMap m hm pair.1 g,
    if_pos ⟨hgne, pair, hpair, rfl, p, hp, hg⟩]
  simp

/-- C5 amended witness: in the round-trip scenario, "luxS" (observed for
strain YL32 of sample1) has an entry. -/
theorem C5_observed_identifier_present_witness :
    (aggregate exAnnots exSamples emptyMap).map
        (fun m => (m "sample1" "luxS").isSome) = some true :=
  C5_observed_identifier_present exAnnots exSamples
    ("sample1", [("KB1", 3 / 5), ("YL32", 2 / 5)]) ("YL32", 2 / 5) "luxS"
    (List.Mem.head _) (List.Mem.tail _ (List.Mem.head _)) (by decide)
    (by decide) (by decide)

/-- C6: a strain with an empty identifier sequence (empty annotation
file) that is listed in any sample makes the whole aggregation fail
fatally — it never produces a zero contribution or skips the strain.
In the script the failure is the `IndexError` raised by
`get_number_of_genes` on the empty defaultdict. -/
theorem C6_empty_strain_fatal
    (annots : String → List String) (samples : List (String × List (String × ℚ)))
    (pair : String × List (String × ℚ)) (p : String × ℚ)
    (hpair : pair ∈ samples) (hp : p ∈ pair.2) (hempty : annots p.1 = []) :
    aggregate annots samples emptyMap = none := by
  cases hagg : aggregate annots samples emptyMap with
  | none => rfl
  | some m =>
    have h : okInput annots samples :=
      (aggregate_isSome annots samples emptyMap).mp (by rw [hagg]; rfl)
    exact absurd hempty (h pair hpair p hp)

/-- C6 witness: a table listing strain B, whose identifier sequence is
empty, makes aggregation return a fatal error. -/
theorem C6_empty_strain_fatal_witness :
    aggregate (fun _ => ([] : List String)) [("s1", [("B", 1)])] emptyMap = none :=
  C6_empty_strain_fatal (fun _ => []) [("s1", [("B", 1)])]
    ("s1", [("B", 1)]) ("B", 1) (List.Mem.head _) (List.Mem.head _) rfl

/-! ## Order independence (C4)

Invariance of the accumulated table under: pointwise replacement of the
per-strain identifier sequences by permutations, permutation of the
strain list inside each sample, and permutation of the sample list. -/

theorem contribAll_annots_congr (a₁ a₂ : String → List String)
    (hA : ∀ st, (a₁ st).Perm (a₂ st)) (i : String)
    (strains : List (String × ℚ)) :
    contribAll a₁ i strains = contribAll a₂ i strains := by
  unfold contribAll
  congr 1
  apply List.map_congr_left
  intro p _
  rw [(hA p.1).count_eq, (hA p.1).length_eq]

theorem contribAll_perm (a : String → List String) (i : String)
    (s1 s2 : List (String × ℚ)) (h : s1.Perm s2) :
    contribAll a i s1 = contribAll a i s2 :=
  (h.map _).sum_eq

theorem totalContrib_annots_congr (a₁ a₂ : String → List String)
    (hA : ∀ st, (a₁ st).Perm (a₂ st))
    (samples : List (String × List (String × ℚ))) (s i : String) :
    totalContrib a₁ samples s i = totalContrib a₂ samples s i := by
  unfold totalContrib
  congr 1
  apply List.map_congr_left
  intro pair _
  by_cases hp : pair.1 = s <;> simp [hp, contribAll_annots_congr a₁ a₂ hA]

theorem totalContrib_forall2 (a : String → List String)
    {l1 l2 : List (String × List (String × ℚ))}
    (hF : List.Forall₂ (fun x y => x.1 = y.1 ∧ x.2.Perm y.2) l1 l2)
    (s i : String) : totalContrib a l1 s i = totalContrib a l2 s i := by
  induction hF with
  | nil => rfl
  | @cons x y l₁ l₂ hxy hl ih =>
    obtain ⟨nx, sx⟩ := x
    obtain ⟨ny, sy⟩ := y
    obtain ⟨he, hperm⟩ := hxy
    simp only at he
    subst he
    rw [totalContrib_cons, totalContrib_cons, ih,
      contribAll_perm a i sx sy hperm]

theorem totalContrib_perm (a : String → List String)
    (l1 l2 : List (String × List (String × ℚ))) (h : l1.Perm l2) (s i : String) :
    totalContrib a l1 s i = totalContrib a l2 s i :=
  (h.map _).sum_eq

theorem appears_annots_congr (a₁ a₂ : String → List String)
    (hA : ∀ st, (a₁ st).Perm (a₂ st))
    (samples : List (String × List (String × ℚ))) (s i : String) :
    appears a₁ samples s i ↔ appears a₂ samples s i := by
  constructor
  · rintro ⟨pair, h1, h2, p, h3, h4⟩
    exact ⟨pair, h1, h2, p, h3, (hA p.1).mem_iff.mp h4⟩
  · rintro ⟨pair, h1, h2, p, h3, h4⟩
    exact ⟨pair, h1, h2, p, h3, (hA p.1).mem_iff.mpr h4⟩

theorem appears_forall2 (a : String → List String)
    {l1 l2 : List (String × List (String × ℚ))}
    (hF : List.Forall₂ (fun x y => x.1 = y.1 ∧ x.2.Perm y.2) l1 l2)
    (s i : String) : appears a l1 s i ↔ appears a l2 s i := by
  induction hF with
  | nil => simp [appears]
  | @cons x y l₁ l₂ hxy hl ih =>
    obtain ⟨nx, sx⟩ := x
    obtain ⟨ny, sy⟩ := y
    obtain ⟨he, hperm⟩ := hxy
    simp only at he
    subst he
    rw [appears_cons, appears_cons, ih]
    apply or_congr _ Iff.rfl
    apply and_congr_right
    intro _
    constructor
    · rintro ⟨p, hp, h⟩
      exact ⟨p, hperm.mem_iff.mp hp, h⟩
    · rintro ⟨p, hp, h⟩
      exact ⟨p, hperm.mem_iff.mpr hp, h⟩

theorem appears_perm (a : String → List String)
    (l1 l2 : List (String × List (String × ℚ))) (h : l1.Perm l2) (s i : String) :
    appears a l1 s i ↔ appears a l2 s i := by
  constructor
  · rintro ⟨pair, h1, hrest⟩
    exact ⟨pair, h.mem_iff.mp h1, hrest⟩
  · rintro ⟨pair, h1, hrest⟩
    exact ⟨pair, h.mem_iff.mpr h1, hrest⟩

theorem okInput_annots_congr (a₁ a₂ : String → List String)
    (hA : ∀ st, (a₁ st).Perm (a₂ st))
    (samples : List (String × List (String × ℚ))) :
    okInput a₁ samples ↔ okInput a₂ samples := by
  have hnil : ∀ st, a₁ st = [] ↔ a₂ st = [] := fun st => by
    rw [← List.length_eq_zero, ← List.length_eq_zero, (hA st).length_eq]
  constructor
  · intro h pair hp p hp2 hE
    exact h pair hp p hp2 ((hnil p.1).mpr hE)
  · intro h pair hp p hp2 hE
    exact h pair hp p hp2 ((hnil p.1).mp hE)

theorem okInput_forall2 (a : String → List String)
    {l1 l2 : List (String × List (String × ℚ))}
    (hF : List.Forall₂ (fun x y => x.1 = y.1 ∧ x.2.Perm y.2) l1 l2) :
    okInput a l1 ↔ okInput a l2 := by
  induction hF with
  | nil => simp [okInput]
  | @cons x y l₁ l₂ hxy hl ih =>
    obtain ⟨nx, sx⟩ := x
    obtain ⟨ny, sy⟩ := y
    obtain ⟨he, hperm⟩ := hxy
    simp only at he
    subst he
    simp only [okInput, List.forall_mem_cons] at ih ⊢
    rw [ih]
    apply and_congr _ Iff.rfl
    constructor
    · intro h p hp
      exact h p (hperm.mem_iff.mpr hp)
    · intro h p hp
      exact h p (hperm.mem_iff.mp hp)

theorem okInput_perm (a : String → List String)
    (l1 l2 : List (String × List (String × ℚ))) (h : l1.Perm l2) :
    okInput a l1 ↔ okInput a l2 := by
  constructor
  · intro hok pair hp p hp2
    exact hok pair (h.mem_iff.mpr hp) p hp2
  · intro hok pair hp p hp2
    exact hok pair (h.mem_iff.mp hp) p hp2

theorem aggregate_eq_none (annots : String → List String)
    (samples : List (String × List (String × ℚ)))
    (h : ¬okInput annots samples) : aggregate annots samples emptyMap = none := by
  cases he : aggregate annots samples emptyMap with
  | none => rfl
  | some m =>
    exact absurd ((aggregate_isSome annots samples emptyMap).mp (by rw [he]; rfl)) h

/-- C4: for a fixed multiset of inputs, permuting the sample list,
permuting the strain list inside each sample, and replacing each
strain's identifier sequence by a permutation of it yields the same
outcome: the run succeeds in one setting exactly when it succeeds in the
other, and every entry of the resulting table is identical. `mid` is
the intermediate table whose sample pairs match `samples₁` pointwise
with permuted strain lists, and `samples₂` is a permutation of `mid`. -/
theorem C4_order_independence
    (annots₁ annots₂ : String → List String)
    (samples₁ mid samples₂ : List (String × List (String × ℚ)))
    (hA : ∀ st, (annots₁ st).Perm (annots₂ st))
    (hF : List.Forall₂ (fun x y => x.1 = y.1 ∧ x.2.Perm y.2) samples₁ mid)
    (hP : mid.Perm samples₂) (s i : String) :
    (aggregate annots₁ samples₁ emptyMap).map (fun m => m s i) =
      (aggregate annots₂ samples₂ emptyMap).map (fun m => m s i) := by
  have hok : okInput annots₁ samples₁ ↔ okInput annots₂ samples₂ := by
    rw [okInput_annots_congr annots₁ annots₂ hA samples₁,
      okInput_forall2 annots₂ hF, okInput_perm annots₂ _ _ hP]
  by_cases h1 : okInput annots₁ samples₁
  · have h2 : okInput annots₂ samples₂ := hok.mp h1
    obtain ⟨m₁, hm₁⟩ := Option.isSome_iff_exists.mp
      ((aggregate_isSome annots₁ samples₁ emptyMap).mpr h1)
    obtain ⟨m₂, hm₂⟩ := Option.isSome_iff_exists.mp
      ((aggregate_isSome annots₂ samples₂ emptyMap).mpr h2)
    have hap : appears annots₁ samples₁ s i ↔ appears annots₂ samples₂ s i := by
      rw [appears_annots_congr annots₁ annots₂ hA samples₁ s i,
        appears_forall2 annots₂ hF s i, appears_perm annots₂ _ _ hP s i]
    have htc : totalContrib annots₁ samples₁ s i = totalContrib annots₂ samples₂ s i := by
      rw [totalContrib_annots_congr annots₁ annots₂ hA samples₁ s i,
        totalContrib_forall2 annots₂ hF s i, totalContrib_perm annots₂ _ _ hP s i]
    rw [hm₁, hm₂, Option.map_some', Option.map_some',
      aggregate_lookup annots₁ samples₁ emptyMap m₁ hm₁ s i,
      aggregate_lookup annots₂ samples₂ emptyMap m₂ hm₂ s i]
    by_cases hc : i ≠ "gene" ∧ appears annots₁ samples₁ s i
    · rw [if_pos hc, if_pos ⟨hc.1, hap.mp hc.2⟩, htc]
    · rw [if_neg hc, if_neg fun hc2 => hc ⟨hc2.1, hap.mpr hc2.2⟩]
  · rw [aggregate_eq_none annots₁ samples₁ h1,
      aggregate_eq_none annots₂ samples₂ fun h => h1 (hok.mpr h)]

/-- Identifier sequences of the C4 witness: those of `exAnnots` with the
KB1 sequence rotated. -/
def exAnnotsR : String → List String := fun st =>
  if st = "KB1" then ["luxS", "alr", "alr"]
  else if st = "YL32" then ["luxS"]
  else []

/-- Two-sample table for the C4 witness. -/
def exSamplesA : List (String × List (String × ℚ)) :=
  [("s1", [("KB1", 3 / 5), ("YL32", 2 / 5)]), ("s2", [("KB1", 1)])]

/-- The C4 witness table with the strain list of s1 swapped. -/
def exSamplesMid : List (String × List (String × ℚ)) :=
  [("s1", [("YL32", 2 / 5), ("KB1", 3 / 5)]), ("s2", [("KB1", 1)])]

/-- The C4 witness table with the samples swapped as well. -/
def exSamplesB : List (String × List (String × ℚ)) :=
  [("s2", [("KB1", 1)]), ("s1", [("YL32", 2 / 5), ("KB1", 3 / 5)])]

/-- C4 witness: permuting the samples, the strains within a sample and
the annotation rows of a strain leaves the entry at (s1, luxS)
unchanged. -/
theorem C4_order_independence_witness :
    (aggregate exAnnots exSamplesA emptyMap).map (fun m => m "s1" "luxS") =
      (aggregate exAnnotsR exSamplesB emptyMap).map (fun m => m "s1" "luxS") := by
  apply C4_order_independence exAnnots exAnnotsR exSamplesA exSamplesMid exSamplesB
  · intro st
    by_cases h1 : st = "KB1"
    · simp only [exAnnots, exAnnotsR, h1, if_pos rfl]
      decide
    · by_cases h2 : st = "YL32" <;>
        simp only [exAnnots, exAnnotsR, h1, h2, if_neg, if_pos, ite_true, ite_false] <;>
        exact List.Perm.refl _
  · exact List.Forall₂.cons ⟨rfl, List.Perm.swap _ _ _⟩
      (List.Forall₂.cons ⟨rfl, List.Perm.refl _⟩ List.Forall₂.nil)
  · exact List.Perm.swap _ _ _

/-! ## The output writer (script lines 261-264)

The script builds `pd.DataFrame(gene_relabs)` from the dict-of-dicts and
writes it with `df.to_csv(args.outfile, sep="\t", index_label="gene")`.
Per the pandas semantics of a DataFrame built from a mapping of column
label → (row label → value): columns are the samples, row labels are the
union of the observed identifiers, and a (row, column) pair without an
entry is NaN, serialized by `to_csv` as an empty (blank) cell;
`index_label="gene"` writes the literal string "gene" as the first
header cell, whatever the requested annotation type was. Numeric text
formatting is abstracted: a cell is `some v` (printed value) or `none`
(blank). -/

/-- Header line of the output file: the literal "gene" followed by the
sample names (the columns of the DataFrame). -/
def outputHeader (sampleNames : List String) : List String :=
  "gene" :: sampleNames

/-- Body of the output file: one row per identifier, carrying the row
label and one optional value per sample (`none` = blank cell). -/
def renderTable (m : GeneMap) (sampleNames genes : List String) :
    List (String × List (Option ℚ)) :=
  genes.map fun g => (g, sampleNames.map fun s => m s g)

/-- C8: for every successful aggregation result, the serialized table's
first column header is the literal string "gene" (for every requested
annotation type — the writer never sees the type), the remaining headers
are the sample names, the rows are labelled by the identifiers, and the
cell for identifier `g` under sample `s` is blank exactly when `g` was
never observed for `s` (no strain listed under `s` has `g` in its
identifier sequence). -/
theorem C8_output_shape
    (annots : String → List String) (samples : List (String × List (String × ℚ)))
    (genes : List String)
    (hok : (aggregate annots samples emptyMap).isSome = true) :
    (outputHeader (samples.map Prod.fst)).getD 0 "" = "gene" ∧
      (outputHeader (samples.map Prod.fst)).drop 1 = samples.map Prod.fst ∧
      (aggregate annots samples emptyMap).map
          (fun m => (renderTable m (samples.map Prod.fst) genes).map Prod.fst) =
        some genes ∧
      ∀ s g : String, g ≠ "gene" →
        (((aggregate annots samples emptyMap).map fun m => (m s g).isNone) =
            some true ↔
          ¬appears annots samples s g) := by
  obtain ⟨m, hm⟩ := Option.isSome_iff_exists.mp hok
  refine ⟨rfl, rfl, ?_, ?_⟩
  · rw [hm, Option.map_some']
    simp only [Option.some.injEq, renderTable, List.map_map]
    have hid : (Prod.fst ∘ fun g : String =>
        (g, List.map ((fun s => m s g) ∘ Prod.fst) samples)) = fun g : String => g := rfl
    rw [hid]
    exact List.map_id genes
  · intro s g hg
    rw [hm, Option.map_some', aggregate_lookup annots samples emptyMap m hm s g]
    by_cases hap : appears annots samples s g
    · rw [if_pos ⟨hg, hap⟩]
      simp [hap]
    · rw [if_neg fun hc => hap hc.2]
      simp [emptyMap, hap]

/-- C8 witness at the round-trip scenario, with the blank-cell clause
instantiated at (sample1, alr). -/
theorem C8_output_shape_witness :
    (outputHeader (exSamples.map Prod.fst)).getD 0 "" = "gene" ∧
      (aggregate exAnnots exSamples emptyMap).map
          (fun m => (renderTable m (exSamples.map Prod.fst) ["alr", "luxS"]).map
            Prod.fst) =
        some ["alr", "luxS"] ∧
      (((aggregate exAnnots exSamples emptyMap).map
            fun m => (m "sample1" "alr").isNone) = some true ↔
        ¬appears exAnnots exSamples "sample1" "alr") := by
  have h := C8_output_shape exAnnots exSamples ["alr", "luxS"] (by decide)
  exact ⟨h.1, h.2.2.1, h.2.2.2 "sample1" "alr" (by decide)⟩

/-! ## The file-presence validator `check_files` (script lines 182-194)

The script computes
`annotation_files = [x.replace(".tsv", "") for x in glob.glob(annotations_dir + "/*.tsv")]`
and then, for each data row of the abundance file, warns and `break`s
when the row's strain is not in that list. Note that glob returns full
paths (directory prefix included), and only the ".tsv" suffix is
removed before the comparison with the bare strain name. -/

/-- Model of `glob.glob(dir + "/*.tsv")` for a directory holding the
files `name.tsv` for `name ∈ names`: full paths, prefix included. -/
def globTsv (dir : String) (names : List String) : List String :=
  names.map fun n => dir ++ "/" ++ n ++ ".tsv"

/-- Model of Python `x.replace(".tsv", "")` on the character list:
removes every leftmost non-overlapping occurrence of ".tsv". -/
def stripTsv : List Char → List Char
  | '.' :: 't' :: 's' :: 'v' :: rest => stripTsv rest
  | c :: rest => c :: stripTsv rest
  | [] => []

/-- Model of `x.replace(".tsv", "")` on a `String`. -/
def pyReplaceTsv (s : String) : String := String.mk (stripTsv s.data)

/-- Model of `check_files`: `strains` are the first fields of the data
rows of the abundance file, `files` the glob result; returns the list of
emitted warning messages. A strain found in the stripped path list is
passed silently; the first strain that is not triggers one warning and
the `break` ends the loop. -/
def check_files (strains : List String) (files : List String) : List String :=
  match strains with
  | [] => []
  | st :: rest =>
    if st ∈ files.map pyReplaceTsv then check_files rest files
    else ["strain " ++ st ++ " annotation file not found"]

/-- C7: the claim says a warning is emitted exactly when the strain's
annotation file is missing. In the code the comparison list keeps the
directory prefix of each glob path (only ".tsv" is removed), so the bare
strain name never matches: here the directory does contain KB1.tsv, yet
the validator still warns that KB1's annotation file is not found.
Moreover the loop `break`s after the first warning, so with several
missing strains only the first is reported. -/
theorem C7_present_file_still_warned :
    (globTsv "annotations" ["KB1"]).map pyReplaceTsv = ["annotations/KB1"] ∧
      check_files ["KB1"] (globTsv "annotations" ["KB1"]) =
        ["strain KB1 annotation file not found"] ∧
      check_files ["A", "B"] [] = ["strain A annotation file not found"] := by
  decide

/-! ## The abundance-table loader `read_relab` (script lines 90-106)

The loader splits the header line into `samples` (whose first token is
the literal "strain" in real inputs) and then, for every data line,
stores `sample_dict[samples[i]][data[0]] = data[i]` for
`i = 1 .. len(samples)-1`, a plain dict assignment: a later row with the
same strain name overwrites the earlier one. Indexing `data[i]` on a row
shorter than the header raises `IndexError`, modelled by the length
guard. -/

/-- The nested mapping `sample_dict` : sample → strain → stored text. -/
abbrev AbundTable := String → String → Option String

/-- The initial `collections.defaultdict(dict)`: no entries. -/
def emptyAbund : AbundTable := fun _ _ => none

/-- One dict assignment `sample_dict[sample][strain] = v`. -/
def setAbund (t : AbundTable) (sample strain v : String) : AbundTable :=
  fun s st => if s = sample ∧ st = strain then some v else t s st

/-- Model of the inner loop `for i in range(1, len(samples))` for one
data row (`List.range' 1 (n-1)` is `[1, ..., n-1]`, as Python
`range(1, n)`). -/
def addRow (samples : List String) (t : AbundTable) (row : List String) : AbundTable :=
  (List.range' 1 (samples.length - 1)).foldl
    (fun acc j => setAbund acc (samples.getD j "") (row.getD 0 "") (row.getD j "")) t

/-- Model of `read_relab`: `samples` is the tab-split header line,
`rows` the tab-split data lines; fails (`IndexError`) when a data row is
shorter than the header. -/
def read_abund (samples : List String) (rows : List (List String)) :
    Option AbundTable :=
  if rows.all fun r => decide (samples.length ≤ r.length) then
    some (rows.foldl (addRow samples) emptyAbund)
  else none

theorem setFold_lookup (samples row : List String) (strain : String) (i : ℕ)
    (hi : i < samples.length) (hnd : samples.Nodup) :
    ∀ idxs : List ℕ, (∀ j ∈ idxs, j < samples.length) →
      ∀ t : AbundTable,
        (idxs.foldl (fun acc j =>
              setAbund acc (samples.getD j "") (row.getD 0 "") (row.getD j "")) t)
            (samples.getD i "") strain =
          if i ∈ idxs ∧ row.getD 0 "" = strain then some (row.getD i "")
          else t (samples.getD i "") strain := by
  intro idxs
  induction idxs with
  | nil =>
    intro _ t
    simp
  | cons j idxs ih =>
    intro hb t
    rw [List.foldl_cons, ih fun k hk => hb k (List.mem_cons_of_mem _ hk)]
    by_cases hc : i ∈ idxs ∧ row.getD 0 "" = strain
    · rw [if_pos hc, if_pos ⟨List.mem_cons_of_mem _ hc.1, hc.2⟩]
    · rw [if_neg hc]
      simp only [setAbund]
      by_cases hkey : samples.getD i "" = samples.getD j "" ∧ strain = row.getD 0 ""
      · have hj : j < samples.length := hb j (List.mem_cons_self _ _)
        have hij : i = j := by
          have hk := hkey.1
          rw [List.getD_eq_getElem _ _ hi, List.getD_eq_getElem _ _ hj] at hk
          exact (List.Nodup.getElem_inj_iff hnd).mp hk
        subst hij
        rw [if_pos ⟨rfl, hkey.2⟩,
          if_pos ⟨List.mem_cons_self _ _, hkey.2.symm⟩]
      · rw [if_neg hkey, if_neg ?hrhs]
        case hrhs =>
          rintro ⟨hmem, hr⟩
          rcases List.mem_cons.mp hmem with h4 | h4
          · subst h4
            exact hkey ⟨rfl, hr.symm⟩
          · exact hc ⟨h4, hr⟩

theorem addRow_lookup (samples : List String) (strain : String) (i : ℕ)
    (hi : i < samples.length) (h1 : 1 ≤ i) (hnd : samples.Nodup)
    (t : AbundTable) (row : List String) :
    addRow samples t row (samples.getD i "") strain =
      if row.getD 0 "" = strain then some (row.getD i "")
      else t (samples.getD i "") strain := by
  unfold addRow
  rw [setFold_lookup samples row strain i hi hnd _ ?hb t]
  case hb =>
    intro j hj
    have := List.mem_range'_1.mp hj
    omega
  have hmem : i ∈ List.range' 1 (samples.length - 1) := by
    rw [List.mem_range'_1]
    omega
  by_cases hr : row.getD 0 "" = strain
  · rw [if_pos ⟨hmem, hr⟩, if_pos hr]
  · rw [if_neg fun hc => hr hc.2, if_neg hr]

theorem addRows_lookup (samples : List String) (strain : String) (i : ℕ)
    (hi : i < samples.length) (h1 : 1 ≤ i) (hnd : samples.Nodup) :
    ∀ (rows : List (List String)) (t : AbundTable),
      (rows.foldl (addRow samples) t) (samples.getD i "") strain =
        match (rows.filter fun r => decide (r.getD 0 "" = strain)).getLast? with
        | some r => some (r.getD i "")
        | none => t (samples.getD i "") strain := by
  have hcons : ∀ (a : List String) (l : List (List String)) (x : List String),
      l.getLast? = some x → (a :: l).getLast? = some x := by
    intro a l x h
    cases l with
    | nil => simp at h
    | cons b bs => rw [List.getLast?_cons_cons]; exact h
  intro rows
  induction rows with
  | nil =>
    intro t
    simp
  | cons r rest ih =>
    intro t
    rw [List.foldl_cons, ih]
    by_cases hr : r.getD 0 "" = strain
    · have hf : (r :: rest).filter (fun r => decide (r.getD 0 "" = strain)) =
          r :: rest.filter fun r => decide (r.getD 0 "" = strain) := by
        rw [List.filter_cons, if_pos (decide_eq_true hr)]
      rw [hf]
      cases hlast : (rest.filter fun r => decide (r.getD 0 "" = strain)).getLast? with
      | some rl => rw [hcons _ _ _ hlast]
      | none =>
        have hnil : (rest.filter fun r => decide (r.getD 0 "" = strain)) = [] :=
          List.getLast?_eq_none_iff.mp hlast
        rw [hnil]
        simp only [List.getLast?_singleton]
        rw [addRow_lookup samples strain i hi h1 hnd t r, if_pos hr]
    · have hf : (r :: rest).filter (fun r => decide (r.getD 0 "" = strain)) =
          rest.filter fun r => decide (r.getD 0 "" = strain) := by
        rw [List.filter_cons, if_neg fun h => hr (of_decide_eq_true h)]
      rw [hf]
      cases hlast : (rest.filter fun r => decide (r.getD 0 "" = strain)).getLast? with
      | some rl => rfl
      | none =>
        rw [addRow_lookup samples strain i hi h1 hnd t r, if_neg hr]

/-- C10: an abundance table containing several data rows with the same
strain name loads without error (provided every row is at least as long
as the header), and the entry for that strain under each sample is the
value from the LAST row carrying that strain name — later rows overwrite
earlier ones rather than being summed or rejected. Stated for any strain
name: the stored value is the last matching row's cell (and no entry at
all when no row matches). Header names are pairwise distinct, as in a
well-formed table. -/
theorem C10_duplicate_strain_last_row_wins
    (samples : List String) (rows : List (List String)) (i : ℕ) (strain : String)
    (hlen : ∀ r ∈ rows, samples.length ≤ r.length)
    (hnd : samples.Nodup) (h1 : 1 ≤ i) (hi : i < samples.length) :
    (read_abund samples rows).isSome = true ∧
      (read_abund samples rows).map (fun t => t (samples.getD i "") strain) =
        some (((rows.filter fun r => decide (r.getD 0 "" = strain)).getLast?).map
          fun r => r.getD i "") := by
  have hall : (rows.all fun r => decide (samples.length ≤ r.length)) = true := by
    rw [List.all_eq_true]
    intro r hr
    exact decide_eq_true (hlen r hr)
  constructor
  · simp [read_abund, hall]
  · unfold read_abund
    rw [if_pos hall, Option.map_some',
      addRows_lookup samples strain i hi h1 hnd rows emptyAbund]
    cases hlast : (rows.filter fun r => decide (r.getD 0 "" = strain)).getLast? with
    | some rl => rfl
    | none => rfl

/-- C10 witness: two rows for strain KB1; the loaded entry under sample
s1 is the second row's value "0.7". -/
theorem C10_duplicate_strain_last_row_wins_witness :
    (read_abund ["strain", "s1"] [["KB1", "0.3"], ["KB1", "0.7"]]).isSome = true ∧
      (read_abund ["strain", "s1"] [["KB1", "0.3"], ["KB1", "0.7"]]).map
          (fun t => t (["strain", "s1"].getD 1 "") "KB1") =
        some (some "0.7") := by
  have h := C10_duplicate_strain_last_row_wins ["strain", "s1"]
    [["KB1", "0.3"], ["KB1", "0.7"]] 1 "KB1" (by decide) (by decide)
    (by decide) (by decide)
  refine ⟨h.1, ?_⟩
  rw [h.2]
  decide

end MM12
